import Mathlib

/-!
Verification of the riscemu memory/CSR/privileged-execution core.

The Lean definitions below are a shallow embedding of the Python sources:

* `src/riscemu/Executable.py` — memory sections, the load algorithm;
* `src/riscemu/priv/CSR.py` — the control/status register bank and the
  packed `mstatus` helpers;
* `src/riscemu/priv/PrivRV32I.py` — the privileged instruction extension.

Python unbounded integers are modelled as `Nat`/`Int`; byte buffers as
`List Nat`; dictionaries in insertion order as association lists; Python
exceptions as `Except`/`Option` results.  Callables stored in the listener
table are modelled as plain tokens (`Nat`), since no claim observes an
invocation's effect.  A few helpers live outside the sampled sources
(`helpers.py`, `privmodes.py`, the exception classes, the `RV32I` operand
parsers); those are modelled from the specification and marked as such in
their doc comments.
-/

/-- MemoryFlags from Executable.py: immutable permission pair. -/
structure MemoryFlags where
  read_only : Bool
  executable : Bool
deriving DecidableEq, Repr

/-! ## CSR bank (src/riscemu/priv/CSR.py) -/

/-- MSTATUS_OFFSETS table from CSR.py: bit offsets of all mstatus fields. -/
def MSTATUS_OFFSETS : List (String × Nat) :=
  [("uie", 0), ("sie", 1), ("mie", 3), ("upie", 4), ("spie", 5),
   ("mpie", 7), ("spp", 8), ("mpp", 11), ("fs", 13), ("xs", 15),
   ("mpriv", 17), ("sum", 18), ("mxr", 19), ("tvm", 20), ("tw", 21),
   ("tsr", 22), ("sd", 31)]

/-- MSTATUS_LEN_2 from CSR.py: the mstatus fields that are 2 bits wide;
all others are 1 bit wide. -/
def MSTATUS_LEN_2 : List String := ["mpp", "fs", "xs"]

/-- Width of an mstatus field: the `size = 2 if name in MSTATUS_LEN_2 else 1`
computation that both set_mstatus and get_mstatus perform. -/
def mstatusFieldLen (name : String) : Nat := if name ∈ MSTATUS_LEN_2 then 2 else 1

/-- name_to_addr table from CSR.py: translation for named registers.
It is a plain dict, so lookup of an absent key raises KeyError. -/
def name_to_addr : List (String × Nat) :=
  [("mstatus", 0x300), ("misa", 0x301), ("mie", 0x304), ("mtvec", 0x305),
   ("mepc", 0x341), ("mcause", 0x342), ("mtval", 0x343), ("mip", 0x344),
   ("mvendorid", 0xF11), ("marchid", 0xF12), ("mimpid", 0xF13),
   ("mhartid", 0xF14), ("time", 0xc01), ("timeh", 0xc81), ("halt", 0x789)]

/-- A CSR address argument: Python `Union[str, int]`. -/
inductive CsrAddr where
  | name (s : String)
  | addr (a : Nat)
deriving DecidableEq, Repr

/-- Python KeyError raised by indexing a dict with an absent key. -/
inductive KeyErr where
  | keyError (k : String)
deriving DecidableEq, Repr

/-- The CSR bank.  `regs` is a `defaultdict(lambda: 0)`, modelled as a total
map with default 0 baked into the initial state; `listeners` is a
`defaultdict` of callables, modelled as opaque tokens (0 = default no-op). -/
structure CSR where
  regs : Nat → Nat
  listeners : Nat → Nat

/-- CSR.get from CSR.py.  For a string address not in name_to_addr the code
prints a diagnostic and then evaluates `self.name_to_addr[addr]`, which
raises KeyError.  The returned list is the printed output. -/
def CSR.get (c : CSR) (addr : CsrAddr) : List String × Except KeyErr Nat :=
  match addr with
  | .name s =>
    match name_to_addr.lookup s with
    | some a => ([], .ok (c.regs a))
    | none => (["Unknown CSR register " ++ s], .error (.keyError s))
  | .addr a => ([], .ok (c.regs a))

/-- CSR.set from CSR.py.  Resolves the address exactly as CSR.get does, then
invokes the listener (modelled as effect-free) and assigns `regs[addr] = val`. -/
def CSR.set (c : CSR) (addr : CsrAddr) (val : Nat) : List String × Except KeyErr CSR :=
  match addr with
  | .name s =>
    match name_to_addr.lookup s with
    | some a => ([], .ok { c with regs := fun x => if x = a then val else c.regs x })
    | none => (["Unknown CSR register " ++ s], .error (.keyError s))
  | .addr a => ([], .ok { c with regs := fun x => if x = a then val else c.regs x })

/-- CSR.set_listener from CSR.py: same name resolution, then installs the
listener (token) at the resolved address, replacing the previous one. -/
def CSR.set_listener (c : CSR) (addr : CsrAddr) (l : Nat) : List String × Except KeyErr CSR :=
  match addr with
  | .name s =>
    match name_to_addr.lookup s with
    | some a => ([], .ok { c with listeners := fun x => if x = a then l else c.listeners x })
    | none => (["Unknown CSR register " ++ s], .error (.keyError s))
  | .addr a => ([], .ok { c with listeners := fun x => if x = a then l else c.listeners x })

/-- Python `x & (~y)` on unbounded non-negative ints: bitwise AND-NOT.
Written as `x ^^^ (x &&& y)` so that it evaluates in the kernel; the lemmas
`pyAndNot_testBit` and `pyAndNot_eq_ldiff` show that this is exactly the
AND-NOT of the source expression. -/
def pyAndNot (x y : Nat) : Nat := x ^^^ (x &&& y)

/-- pyAndNot is bitwise AND-NOT. -/
theorem pyAndNot_testBit (x y i : Nat) :
    (pyAndNot x y).testBit i = (x.testBit i && !(y.testBit i)) := by
  simp only [pyAndNot, Nat.testBit_xor, Nat.testBit_land]
  cases x.testBit i <;> cases y.testBit i <;> rfl

/-- pyAndNot agrees with Nat.ldiff, the mathematical AND-NOT. -/
theorem pyAndNot_eq_ldiff (x y : Nat) : pyAndNot x y = Nat.ldiff x y := by
  apply Nat.eq_of_testBit_eq
  intro i
  rw [pyAndNot_testBit, Nat.testBit_ldiff]

/-- CSR.set_mstatus from CSR.py.  `self.get('mstatus')` resolves the known
name 'mstatus' to address 0x300 and cannot fail, so it is inlined as
`c.regs 0x300`; likewise the final `self.set('mstatus', new_val)` (whose
listener invocation is effect-free in this model).  `old_val & (~mask)` on
Python's unbounded non-negative ints is `pyAndNot old_val mask`.
`MSTATUS_OFFSETS[name]` raises KeyError for an unknown field name, hence the
`Option` result. -/
def CSR.set_mstatus (c : CSR) (name : String) (val : Nat) : Option CSR :=
  match MSTATUS_OFFSETS.lookup name with
  | none => none
  | some off =>
    let mask := (2 ^ mstatusFieldLen name - 1) <<< off
    let old_val := c.regs 0x300
    let erased := pyAndNot old_val mask
    let new_val := erased ||| (val <<< off)
    some { c with regs := fun x => if x = 0x300 then new_val else c.regs x }

/-- CSR.get_mstatus from CSR.py: mask out the field's bit range and shift it
down to the low bits. -/
def CSR.get_mstatus (c : CSR) (name : String) : Option Nat :=
  match MSTATUS_OFFSETS.lookup name with
  | none => none
  | some off =>
    let mask := (2 ^ mstatusFieldLen name - 1) <<< off
    some ((c.regs 0x300 &&& mask) >>> off)

/-- A CSR bank in its initial state: all registers 0, all listeners default. -/
def csr0 : CSR := { regs := fun _ => 0, listeners := fun _ => 0 }

example : (CSR.get csr0 (.name "mstatus")).2 = .ok 0 := by rfl
example : (CSR.get csr0 (.name "nonesuch")).2 = .error (.keyError "nonesuch") := by rfl
example : CSR.get_mstatus csr0 "mpp" = some 0 := by rfl

/-! ## C2: unknown CSR mnemonics -/

/-- C2 (amended): a CSR.get / CSR.set / CSR.set_listener call whose string
address is not in the known-mnemonic table logs the diagnostic and then
fails with a KeyError from `name_to_addr[addr]`; it does not degrade to
address 0, and no register or listener is touched. -/
theorem csr_unknown_name_fails (c : CSR) (s : String)
    (h : name_to_addr.lookup s = none) :
    CSR.get c (.name s) = (["Unknown CSR register " ++ s], .error (.keyError s)) ∧
    (∀ v, CSR.set c (.name s) v = (["Unknown CSR register " ++ s], .error (.keyError s))) ∧
    (∀ l, CSR.set_listener c (.name s) l
      = (["Unknown CSR register " ++ s], .error (.keyError s))) := by
  refine ⟨?_, fun v => ?_, fun l => ?_⟩ <;>
    simp [CSR.get, CSR.set, CSR.set_listener, h]

/-- Witness for csr_unknown_name_fails at the unknown name "floopy". -/
theorem csr_unknown_name_fails_witness :
    name_to_addr.lookup "floopy" = none ∧
    CSR.get csr0 (.name "floopy")
      = (["Unknown CSR register " ++ "floopy"], .error (.keyError "floopy")) :=
  ⟨by decide, (csr_unknown_name_fails csr0 "floopy" (by decide)).1⟩

/-- C2 counterexample: on the fresh CSR bank, a get/set/set_listener with the
unknown name "floopy" does not complete at address 0 (get does not return
`regs 0`); all three fail with a KeyError. -/
theorem csr_unknown_name_counterexample :
    (CSR.get csr0 (.name "floopy")).2 ≠ .ok (csr0.regs 0) ∧
    (CSR.get csr0 (.name "floopy")).2 = .error (.keyError "floopy") ∧
    (CSR.set csr0 (.name "floopy") 7).2 = .error (.keyError "floopy") ∧
    (CSR.set_listener csr0 (.name "floopy") 1).2 = .error (.keyError "floopy") :=
  ⟨fun h => Except.noConfusion
      ((rfl : (CSR.get csr0 (.name "floopy")).2
          = Except.error (KeyErr.keyError "floopy")) ▸ h),
    rfl, rfl, rfl⟩

/-! ## C3: mstatus field round-trip -/

/-- Extracting a packed mstatus field returns the stored value reduced
modulo the field width. -/
theorem mstatus_pack_extract (old v off w : Nat) :
    ((pyAndNot old ((2 ^ w - 1) <<< off) ||| v <<< off) &&& ((2 ^ w - 1) <<< off)) >>> off
      = v % 2 ^ w := by
  apply Nat.eq_of_testBit_eq
  intro i
  simp only [Nat.testBit_shiftRight, Nat.testBit_land, Nat.testBit_lor, pyAndNot_testBit,
    Nat.testBit_shiftLeft, Nat.testBit_two_pow_sub_one, Nat.testBit_mod_two_pow, ge_iff_le,
    Nat.le_add_right, Nat.add_sub_cancel_left, decide_True, Bool.true_and]
  by_cases hi : i < w <;>
    cases htold : Nat.testBit old (off + i) <;>
    cases htv : Nat.testBit v i <;>
    simp [hi, htold, htv]

/-- Packing a value that fits in the field leaves every bit outside the
field's range unchanged. -/
theorem mstatus_pack_frame (old v off w k : Nat) (hv : v < 2 ^ w)
    (hk : k < off ∨ off + w ≤ k) :
    (pyAndNot old ((2 ^ w - 1) <<< off) ||| v <<< off).testBit k = old.testBit k := by
  simp only [Nat.testBit_lor, pyAndNot_testBit, Nat.testBit_shiftLeft,
    Nat.testBit_two_pow_sub_one, ge_iff_le]
  rcases hk with hk | hk
  · have hko : ¬ off ≤ k := by omega
    simp [hko]
  · have hkw : ¬ (k - off < w) := by omega
    have hv2 : v < 2 ^ (k - off) :=
      lt_of_lt_of_le hv (Nat.pow_le_pow_right (by norm_num) (by omega))
    simp [hkw, Nat.testBit_lt_two_pow hv2]

/-- C3 (amended): for a defined mstatus field, set_mstatus followed by
get_mstatus returns `v mod 2^width` for every value `v`; the bits outside
the field's range are preserved provided `v` fits in the field's width
(`v < 2^width`, the precondition stated in set_mstatus's docstring); and no
other CSR register is touched. -/
theorem set_mstatus_roundtrip (c : CSR) (name : String) (off v : Nat)
    (hoff : MSTATUS_OFFSETS.lookup name = some off) :
    ∃ c', CSR.set_mstatus c name v = some c' ∧
      CSR.get_mstatus c' name = some (v % 2 ^ mstatusFieldLen name) ∧
      (v < 2 ^ mstatusFieldLen name →
        ∀ k, k < off ∨ off + mstatusFieldLen name ≤ k →
          Nat.testBit (c'.regs 0x300) k = Nat.testBit (c.regs 0x300) k) ∧
      (∀ a, a ≠ 0x300 → c'.regs a = c.regs a) := by
  refine ⟨⟨fun x =>
      if x = 0x300 then pyAndNot (c.regs 0x300) ((2 ^ mstatusFieldLen name - 1) <<< off) ||| v <<< off else c.regs x,
      c.listeners⟩, ?_, ?_, ?_, ?_⟩
  · simp [CSR.set_mstatus, hoff]
  · simp only [CSR.get_mstatus, hoff]
    exact congrArg some (mstatus_pack_extract (c.regs 0x300) v off (mstatusFieldLen name))
  · intro hv k hk
    exact mstatus_pack_frame (c.regs 0x300) v off (mstatusFieldLen name) k hv hk
  · intro a ha
    simp [ha]

/-- The CSR bank after set_mstatus "uie" 2 on the fresh bank (the value 2
does not fit the 1-bit uie field). -/
def c3csr1 : CSR :=
  match CSR.set_mstatus csr0 "uie" 2 with
  | some c => c
  | none => csr0

/-- C3 counterexample: setting the 1-bit field uie to 2 on a zeroed mstatus
flips bit 1 — the sie field — so a bit outside uie's bit-range changes,
refuting the claim's "every integer value v" frame condition. -/
theorem set_mstatus_frame_counterexample :
    (CSR.set_mstatus csr0 "uie" 2).isSome = true ∧
    CSR.get_mstatus csr0 "sie" = some 0 ∧
    CSR.get_mstatus c3csr1 "sie" = some 1 ∧
    Nat.testBit (csr0.regs 0x300) 1 = false ∧
    Nat.testBit (c3csr1.regs 0x300) 1 = true := by
  decide

/-- Witness for set_mstatus_roundtrip: the 2-bit field mpp at offset 11,
written with the in-range value 2. -/
theorem set_mstatus_roundtrip_witness :
    MSTATUS_OFFSETS.lookup "mpp" = some 11 ∧
    (∃ c', CSR.set_mstatus csr0 "mpp" 2 = some c' ∧
      CSR.get_mstatus c' "mpp" = some (2 % 2 ^ mstatusFieldLen "mpp") ∧
      (2 < 2 ^ mstatusFieldLen "mpp" →
        ∀ k, k < 11 ∨ 11 + mstatusFieldLen "mpp" ≤ k →
          Nat.testBit (c'.regs 0x300) k = Nat.testBit (csr0.regs 0x300) k) ∧
      (∀ a, a ≠ 0x300 → c'.regs a = csr0.regs a)) :=
  ⟨by decide, set_mstatus_roundtrip csr0 "mpp" 11 2 (by decide)⟩

/-! ## Loaded memory sections (src/riscemu/Executable.py) -/

/-- MemoryAccessException from Exceptions.py (not under src), modelled from
the spec: a structured fault carrying message, faulting address, access size
and access-kind tag. -/
structure MemoryAccessException where
  msg : String
  addr : Int
  size : Int
  kind : String
deriving DecidableEq, Repr

/-- Python step-1 slice endpoint normalization: a negative index counts from
the end of the list, then the endpoint is clamped to the interval [0, len]. -/
def pyIndex (len : Nat) (i : Int) : Nat :=
  if i < 0 then (i + len).toNat else min i.toNat len

/-- Python step-1 slice `l[a : b]`. -/
def pySlice (l : List α) (a b : Int) : List α :=
  (l.take (pyIndex l.length b)).drop (pyIndex l.length a)

/-- LoadedMemorySection from Executable.py: a section placed in memory.
Byte content is a list of byte values; instruction sections are outside the
byte-level claims and are not modelled. -/
structure LoadedMemorySection where
  name : String
  base : Nat
  size : Nat
  content : List Nat
  flags : MemoryFlags
  owner : String
deriving DecidableEq, Repr

/-- LoadedMemorySection.read from Executable.py: reject offset < 0, reject
`offset + size >= self.size`, otherwise return `content[offset : offset+size]`. -/
def LoadedMemorySection.read (s : LoadedMemorySection) (offset size : Int) :
    Except MemoryAccessException (List Nat) :=
  if offset < 0 then
    .error ⟨"Invalid offset " ++ toString offset, (s.base : Int) + offset, size, "read"⟩
  else if (s.size : Int) ≤ offset + size then
    .error ⟨"Outside section boundary of section " ++ s.name, (s.base : Int) + offset, size, "read"⟩
  else
    .ok (pySlice s.content offset (offset + size))

/-- A write either raises a structured memory fault (read-only or
out-of-bounds, as in the source) or, when the copy loop runs off the end of
the buffer or the data, a bare Python IndexError. -/
inductive WriteError where
  | fault (e : MemoryAccessException)
  | indexError
deriving DecidableEq, Repr

/-- The copy loop of LoadedMemorySection.write:
`for i in range(size): self.content[offset + i] = data[i]`.  An index out of
range raises IndexError; the partially mutated buffer of a crashed loop is
never observed by a caller, so the model discards it. -/
def writeLoop : List Nat → Nat → List Nat → Nat → Nat → Option (List Nat)
  | content, _, _, _, 0 => some content
  | content, offset, data, i, rem + 1 =>
    if offset + i < content.length ∧ i < data.length then
      writeLoop (content.set (offset + i) (data.getD i 0)) offset data (i + 1) rem
    else
      none

/-- LoadedMemorySection.write from Executable.py: reject read-only sections,
then offset < 0, then `offset >= self.size` (note: unlike read, the upper
check does not involve `size`), then run the copy loop. -/
def LoadedMemorySection.write (s : LoadedMemorySection) (offset size : Int) (data : List Nat) :
    Except WriteError LoadedMemorySection :=
  if s.flags.read_only then
    .error (.fault ⟨"Section not writeable " ++ s.name, (s.base : Int) + offset, size, "write"⟩)
  else if offset < 0 then
    .error (.fault ⟨"Invalid offset " ++ toString offset, (s.base : Int) + offset, 1, "write"⟩)
  else if (s.size : Int) ≤ offset then
    .error (.fault ⟨"Outside section boundary of section " ++ s.name, (s.base : Int) + offset, size, "write"⟩)
  else
    match writeLoop s.content offset.toNat data 0 size.toNat with
    | some newContent => .ok { s with content := newContent }
    | none => .error .indexError

example : pySlice [10, 20, 30, 40] 1 3 = [20, 30] := by decide
example : (LoadedMemorySection.mk "d" 0 4 [10, 20, 30, 40] ⟨false, false⟩ "o").read 1 2
    = .ok [20, 30] := by rfl

/-! ## C5: read bounds -/

/-- C5: read(offset, size) on a section of size N returns the byte slice
content[offset : offset+size] exactly when offset >= 0 and offset + size < N;
it raises an out-of-bounds MemoryAccessException otherwise, and in
particular a read that exactly reaches the final byte (offset + size = N)
is rejected. -/
theorem read_bounds (s : LoadedMemorySection) (offset size : Int) :
    (0 ≤ offset → offset + size < (s.size : Int) →
      s.read offset size = .ok (pySlice s.content offset (offset + size))) ∧
    (offset < 0 →
      s.read offset size
        = .error ⟨"Invalid offset " ++ toString offset, (s.base : Int) + offset, size, "read"⟩) ∧
    (0 ≤ offset → (s.size : Int) ≤ offset + size →
      s.read offset size
        = .error ⟨"Outside section boundary of section " ++ s.name,
            (s.base : Int) + offset, size, "read"⟩) ∧
    (0 ≤ offset → offset + size = (s.size : Int) →
      s.read offset size
        = .error ⟨"Outside section boundary of section " ++ s.name,
            (s.base : Int) + offset, size, "read"⟩) := by
  refine ⟨fun h1 h2 => ?_, fun h => ?_, fun h1 h2 => ?_, fun h1 h2 => ?_⟩
  · have hn : ¬ offset < 0 := by omega
    have hb : ¬ (s.size : Int) ≤ offset + size := by omega
    simp [LoadedMemorySection.read, hn, hb]
  · simp [LoadedMemorySection.read, h]
  · have hn : ¬ offset < 0 := by omega
    simp [LoadedMemorySection.read, hn, h2]
  · have hn : ¬ offset < 0 := by omega
    have hb : (s.size : Int) ≤ offset + size := by omega
    simp [LoadedMemorySection.read, hn, hb]

/-- The concrete 4-byte section used to witness the read boundary rules. -/
def sec5 : LoadedMemorySection :=
  ⟨"data", 0x100, 4, [10, 20, 30, 40], ⟨false, false⟩, "main"⟩

/-- Witness for read_bounds: on a 4-byte section, read 1 2 succeeds with the
slice, and read 0 4 — exactly reaching the final byte — is rejected. -/
theorem read_bounds_witness :
    sec5.read 1 2 = .ok (pySlice sec5.content 1 (1 + 2)) ∧
    sec5.read 0 4
      = .error ⟨"Outside section boundary of section " ++ sec5.name,
          (sec5.base : Int) + 0, 4, "read"⟩ :=
  ⟨(read_bounds sec5 1 2).1 (by norm_num) (by norm_num [sec5]),
   (read_bounds sec5 0 4).2.2.2 (by norm_num) (by norm_num [sec5])⟩

/-! ## C4: write permission and bounds -/

/-- When the remaining copy fits both the buffer and the data, the copy
loop succeeds and yields the buffer with data[0..rem) written at
offset+i..offset+i+rem). -/
theorem writeLoop_spec :
    ∀ (rem : Nat) (content : List Nat) (offset i : Nat) (data : List Nat),
    offset + i + rem ≤ content.length → i + rem ≤ data.length →
    ∃ out, writeLoop content offset data i rem = some out ∧
      out.length = content.length ∧
      ∀ j : Nat, out.getD j 0 =
        if offset + i ≤ j ∧ j < offset + i + rem
        then data.getD (j - offset) 0 else content.getD j 0 := by
  intro rem
  induction rem with
  | zero =>
    intro content offset i data _ _
    refine ⟨content, rfl, rfl, fun j => ?_⟩
    rw [if_neg (by omega)]
  | succ rem ih =>
    intro content offset i data hc hd
    have hcb : offset + i < content.length := by omega
    have hdb : i < data.length := by omega
    obtain ⟨out, hrun, hlen, hget⟩ :=
      ih (content.set (offset + i) (data.getD i 0)) offset (i + 1) data
        (by simpa using by omega) (by omega)
    refine ⟨out, ?_, by simpa using hlen, fun j => ?_⟩
    · rw [writeLoop, if_pos ⟨hcb, hdb⟩]
      exact hrun
    · rw [hget j]
      by_cases hj1 : offset + (i + 1) ≤ j ∧ j < offset + (i + 1) + rem
      · rw [if_pos hj1, if_pos (by omega)]
      · rw [if_neg hj1]
        by_cases hj2 : j = offset + i
        · subst hj2
          rw [if_pos (by omega), List.getD_eq_getElem?_getD, List.getElem?_set_self hcb,
            List.getD_eq_getElem?_getD]
          simp [Nat.add_sub_cancel_left]
        · rw [if_neg (by omega), List.getD_eq_getElem?_getD,
            List.getElem?_set_ne (fun h => hj2 h.symm), List.getD_eq_getElem?_getD]

/-- C4 (amended): write fails with the read-only fault whenever the
read_only flag is set, regardless of offset; otherwise its out-of-bounds
rule is `offset < 0 or offset >= size` — the upper check, unlike read's,
does not add `size` to the offset, so e.g. a write of size bytes at offset 0
is accepted where the corresponding read is rejected; an accepted write
whose bytes fit the buffer copies exactly `size` bytes of data into the
content starting at offset and changes nothing else. -/
theorem write_spec (s : LoadedMemorySection) (offset size : Int) (data : List Nat) :
    (s.flags.read_only = true →
      s.write offset size data
        = .error (.fault ⟨"Section not writeable " ++ s.name,
            (s.base : Int) + offset, size, "write"⟩)) ∧
    (s.flags.read_only = false → offset < 0 →
      s.write offset size data
        = .error (.fault ⟨"Invalid offset " ++ toString offset,
            (s.base : Int) + offset, 1, "write"⟩)) ∧
    (s.flags.read_only = false → 0 ≤ offset → (s.size : Int) ≤ offset →
      s.write offset size data
        = .error (.fault ⟨"Outside section boundary of section " ++ s.name,
            (s.base : Int) + offset, size, "write"⟩)) ∧
    (s.flags.read_only = false → 0 ≤ offset → offset < (s.size : Int) →
      offset.toNat + size.toNat ≤ s.content.length → size.toNat ≤ data.length →
      ∃ s', s.write offset size data = .ok s' ∧
        s'.name = s.name ∧ s'.base = s.base ∧ s'.size = s.size ∧
        s'.flags = s.flags ∧ s'.owner = s.owner ∧
        s'.content.length = s.content.length ∧
        ∀ j : Nat, s'.content.getD j 0 =
          if offset.toNat ≤ j ∧ j < offset.toNat + size.toNat
          then data.getD (j - offset.toNat) 0 else s.content.getD j 0) := by
  refine ⟨fun hro => ?_, fun hro hn => ?_, fun hro h0 hb => ?_, fun hro h0 hb hfit hdata => ?_⟩
  · simp [LoadedMemorySection.write, hro]
  · simp [LoadedMemorySection.write, hro, hn]
  · have hn : ¬ offset < 0 := by omega
    simp [LoadedMemorySection.write, hro, hn, hb]
  · have hn : ¬ offset < 0 := by omega
    have hb2 : ¬ (s.size : Int) ≤ offset := by omega
    obtain ⟨out, hrun, hlen, hget⟩ :=
      writeLoop_spec size.toNat s.content offset.toNat 0 data (by omega) (by omega)
    refine ⟨{ s with content := out }, ?_, rfl, rfl, rfl, rfl, rfl, hlen, fun j => ?_⟩
    · simp only [LoadedMemorySection.write, hro, if_neg hn, if_neg hb2,
        Bool.false_eq_true, if_false]
      rw [hrun]
    · have := hget j
      simpa using this

/-- The concrete writable 4-byte section used for the C4 boundary analysis. -/
def sec4 : LoadedMemorySection := ⟨"buf", 0, 4, [0, 0, 0, 0], ⟨false, false⟩, "main"⟩

/-- C4 counterexample: on a writable 4-byte section, write(0, 4, data) is
accepted and copies all four bytes, although read(0, 4) at the very same
offset and size is rejected as out of bounds — so write does not follow the
same boundary rules as read, refuting the claim. -/
theorem write_bounds_counterexample :
    sec4.write 0 4 [9, 9, 9, 9] = .ok { sec4 with content := [9, 9, 9, 9] } ∧
    sec4.read 0 4
      = .error ⟨"Outside section boundary of section buf", 0, 4, "read"⟩ := by
  exact ⟨rfl, rfl⟩

/-- Witness for write_spec: a read-only section always faults; the writable
section sec4 accepts write(1, 2, [7, 8]) and copies exactly those bytes. -/
theorem write_spec_witness :
    (LoadedMemorySection.mk "ro" 0 4 [0, 0, 0, 0] ⟨true, false⟩ "main").write 0 1 [1]
      = .error (.fault ⟨"Section not writeable " ++ "ro", ((0 : Nat) : Int) + 0, 1, "write"⟩) ∧
    (∃ s', sec4.write 1 2 [7, 8] = .ok s' ∧
      s'.name = sec4.name ∧ s'.base = sec4.base ∧ s'.size = sec4.size ∧
      s'.flags = sec4.flags ∧ s'.owner = sec4.owner ∧
      s'.content.length = sec4.content.length ∧
      ∀ j : Nat, s'.content.getD j 0 =
        if (1 : Int).toNat ≤ j ∧ j < (1 : Int).toNat + (2 : Int).toNat
        then [7, 8].getD (j - (1 : Int).toNat) 0 else sec4.content.getD j 0) :=
  ⟨(write_spec (LoadedMemorySection.mk "ro" 0 4 [0, 0, 0, 0] ⟨true, false⟩ "main")
      0 1 [1]).1 rfl,
   (write_spec sec4 1 2 [7, 8]).2.2.2 rfl (by decide) (by decide)
     (by decide) (by decide)⟩

/-! ## C10: continuous_content mutates its first chunk -/

/-- MemorySection from Executable.py: an unloaded section accumulating byte
chunks.  `content` is the list of appended bytearray chunks. -/
structure MemorySection where
  name : String
  flags : MemoryFlags
  size : Nat
  content : List (List Nat)
deriving DecidableEq, Repr

/-- MemorySection.add from Executable.py: append a chunk, grow size. -/
def MemorySection.add (s : MemorySection) (data : List Nat) : MemorySection :=
  { s with content := s.content ++ [data], size := s.size + data.length }

/-- MemorySection.continuous_content from Executable.py.  The local variable
`content = self.content[0]` aliases the first stored chunk, and `content += b`
extends that bytearray in place, so after the call the first stored chunk has
become the full concatenation; the other chunks and the `size` field are
untouched.  `self.content[0]` raises IndexError on an empty chunk list (only
reachable when `size` disagrees with the chunks), hence the Option. -/
def MemorySection.continuous_content (s : MemorySection) :
    Option (List Nat × MemorySection) :=
  if s.size = 0 then some ([], s)
  else
    match s.content with
    | [] => none
    | c :: rest =>
      let content := rest.foldl (fun a b => a ++ b) c
      some (content, { s with content := content :: rest })

/-- Left fold of append over the remaining chunks is the concatenation. -/
theorem foldl_append_eq_join (c : List Nat) (l : List (List Nat)) :
    l.foldl (fun a b => a ++ b) c = c ++ l.join := by
  induction l generalizing c with
  | nil => simp
  | cons x xs ih => simp [ih]

/-- C10 (amended): on a byte section holding two or more appended chunks of
which at least one chunk after the first is nonempty, continuous_content
grows the first stored chunk in place to the full concatenation while the
size field is unchanged, so the chunk-length sum exceeds size and a second
call returns a strictly longer buffer. -/
theorem continuous_content_mutates (s : MemorySection) (c0 : List Nat)
    (rest : List (List Nat))
    (hc : s.content = c0 :: rest)
    (hsize : s.size = (s.content.map List.length).sum)
    (hrest : 0 < (rest.map List.length).sum) :
    ∃ full s2, s.continuous_content = some (full, s2) ∧
      full = c0 ++ rest.join ∧
      s2.content = full :: rest ∧
      s2.size = s.size ∧ s2.name = s.name ∧ s2.flags = s.flags ∧
      (s2.content.map List.length).sum = s.size + (rest.map List.length).sum ∧
      (s2.content.map List.length).sum ≠ s.size ∧
      ∃ full2 s3, s2.continuous_content = some (full2, s3) ∧
        full.length < full2.length := by
  have hjoin : rest.join.length = (rest.map List.length).sum := by
    simp [List.length_join]
  have hs0 : s.size ≠ 0 := by
    rw [hsize, hc]
    simp only [List.map_cons, List.sum_cons]
    omega
  have h1 : s.continuous_content
      = some (c0 ++ rest.join, { s with content := (c0 ++ rest.join) :: rest }) := by
    simp only [MemorySection.continuous_content, if_neg hs0, hc, foldl_append_eq_join]
  refine ⟨c0 ++ rest.join, { s with content := (c0 ++ rest.join) :: rest },
    h1, rfl, rfl, rfl, rfl, rfl, ?_, ?_, ?_⟩
  · rw [hsize, hc]
    simp only [List.map_cons, List.sum_cons, List.length_append, hjoin]
  · rw [hsize, hc]
    simp only [List.map_cons, List.sum_cons, List.length_append, hjoin]
    omega
  · have hs2 : ({ s with content := (c0 ++ rest.join) :: rest } : MemorySection).size ≠ 0 := hs0
    refine ⟨(c0 ++ rest.join) ++ rest.join,
      { s with content := ((c0 ++ rest.join) ++ rest.join) :: rest }, ?_, ?_⟩
    · simp only [MemorySection.continuous_content, if_neg hs2, foldl_append_eq_join]
    · simp only [List.length_append]
      omega

/-- A byte section built by two add calls whose second appended chunk is
empty: content [[7], []], size 1. -/
def sec10 : MemorySection :=
  ((MemorySection.mk "d" ⟨false, false⟩ 0 []).add [7]).add []

/-- C10 counterexample: sec10 holds two appended chunks, yet after
continuous_content the chunk-length sum still equals size (1 = 1) and the
returned section is sec10 itself, so a second call returns the same
one-byte buffer, not a longer one — refuting the claim for sections whose
later chunks are empty. -/
theorem continuous_content_counterexample :
    sec10.content = [[7], []] ∧
    sec10.content.length = 2 ∧
    MemorySection.continuous_content sec10 = some ([7], sec10) ∧
    (sec10.content.map List.length).sum = sec10.size := by
  exact ⟨rfl, rfl, rfl, rfl⟩

/-- A byte section with two appended chunks whose second chunk is nonempty:
content [[1], [2, 3]], size 3. -/
def sec10b : MemorySection :=
  ((MemorySection.mk "w" ⟨false, false⟩ 0 []).add [1]).add [2, 3]

/-- Witness for continuous_content_mutates at sec10b. -/
theorem continuous_content_mutates_witness :
    sec10b.content = [1] :: [[2, 3]] ∧
    (∃ full s2, sec10b.continuous_content = some (full, s2) ∧
      full = [1] ++ [[2, 3]].join ∧
      s2.content = full :: [[2, 3]] ∧
      s2.size = sec10b.size ∧ s2.name = sec10b.name ∧ s2.flags = sec10b.flags ∧
      (s2.content.map List.length).sum = sec10b.size + ([[2, 3]].map List.length).sum ∧
      (s2.content.map List.length).sum ≠ sec10b.size ∧
      ∃ full2 s3, s2.continuous_content = some (full2, s3) ∧
        full.length < full2.length) :=
  ⟨rfl, continuous_content_mutates sec10b [1] [[2, 3]] rfl (by decide) (by decide)⟩

/-! ## Privileged instruction extension (src/riscemu/priv/PrivRV32I.py) -/

/-- Modelled from the spec: privmodes.py is not under src; privilege modes
form the linear order USER(0) < SUPERVISOR(1) < MACHINE(3). -/
inductive PrivModes where
  | USER
  | SUPER
  | MACHINE
deriving DecidableEq, Repr

/-- Modelled from the spec: the numeric encoding of a privilege mode
(matches the architecture's mpp field values 0/1/3). -/
def PrivModes.value : PrivModes → Nat
  | .USER => 0
  | .SUPER => 1
  | .MACHINE => 3

/-- Modelled from the spec: the `PrivModes(mpp)` enum conversion; a number
outside the encoding raises ValueError. -/
def PrivModes.ofValue (n : Nat) : Option PrivModes :=
  if n = 0 then some .USER
  else if n = 1 then some .SUPER
  else if n = 3 then some .MACHINE
  else none

/-- Modelled from the spec: priv/Exceptions.py is not under src; the trap
signal is a (cause_reason, cause_code) pair and the source raises
`CpuTrap(0, code)`. -/
structure CpuTrap where
  reason : Nat
  code : Nat
deriving DecidableEq, Repr

/-- The Python exceptions instruction_mret can raise: the
IllegalInstructionTrap privilege gate, plus the (unreachable at its call
sites) KeyError/ValueError propagation of its helpers. -/
inductive PrivTrap where
  | illegalInstruction
  | keyError
  | valueError
deriving DecidableEq, Repr

/-- The PrivCPU state visible to the modelled instructions: privilege mode,
program counter, CSR bank and the general register file (a total map from
register name to value, as the registers module is not under src). -/
structure PrivCPU where
  mode : PrivModes
  pc : Int
  csr : CSR
  regs : String → Nat

/-- PrivRV32I.instruction_scall: raise CpuTrap(0, 8/9/11) depending on the
current privilege mode (the returned value is the raised trap). -/
def instruction_scall (mode : PrivModes) : CpuTrap :=
  match mode with
  | .USER => ⟨0, 8⟩
  | .SUPER => ⟨0, 9⟩
  | .MACHINE => ⟨0, 11⟩

/-- PrivRV32I.instruction_mret.  A raise aborts execution with the Python
object unchanged up to that point, so the result is the pending trap (if
any) paired with the state reached.  Outside MACHINE mode the gate fires
before any mutation.  On the success path: restore mie from mpie, restore
the privilege mode from mpp, restore pc from CSR mepc (the known name
'mepc' resolves to 0x341).  The keyError/valueError branches mirror the
exception propagation of the helpers and are unreachable here. -/
def instruction_mret (cpu : PrivCPU) : Option PrivTrap × PrivCPU :=
  if cpu.mode ≠ PrivModes.MACHINE then (some .illegalInstruction, cpu)
  else
    match cpu.csr.get_mstatus "mpie" with
    | none => (some .keyError, cpu)
    | some mpie =>
      match cpu.csr.set_mstatus "mie" mpie with
      | none => (some .keyError, cpu)
      | some csr1 =>
        let cpu1 := { cpu with csr := csr1 }
        match csr1.get_mstatus "mpp" with
        | none => (some .keyError, cpu1)
        | some mpp =>
          match PrivModes.ofValue mpp with
          | none => (some .valueError, cpu1)
          | some m =>
            let cpu2 := { cpu1 with mode := m }
            let mepc := csr1.regs 0x341
            (none, { cpu2 with pc := (mepc : Int) })

/-- The Python TypeError that the csrrw destination path raises. -/
inductive CsrrwError where
  | typeError (msg : String)
deriving DecidableEq, Repr

/-- PrivRV32I.instruction_csrrw, after parse_crs_ins has produced the
destination register name rd, the source register's value (get_reg_content
fetches the named register's current value) and the CSR index ind.  When
rd is not the zero register the source evaluates
`int_from_bytes(self.cpu.csr[ind])`, but the CSR class in
src/riscemu/priv/CSR.py defines no __getitem__, so subscripting the bank
raises TypeError before rd or the CSR is written; the raise leaves the
state unchanged, mirrored by pairing the error with the untouched state.
When rd is the zero register the subscript is never evaluated and
`csr.set(ind, rs)` stores the saved source value (an integer address
always resolves, so that error branch is unreachable). -/
def instruction_csrrw (cpu : PrivCPU) (rd rs_name : String) (ind : Nat) :
    Option CsrrwError × PrivCPU :=
  let rs := cpu.regs rs_name
  if rd ≠ "zero" then
    (some (.typeError "CSR object is not subscriptable"), cpu)
  else
    match (cpu.csr.set (.addr ind) rs).2 with
    | .ok c2 => (none, { cpu with csr := c2 })
    | .error _ => (none, cpu)

/-! ## C9: ecall cause codes -/

/-- C9: scall raises a CpuTrap whose cause code is 8 from USER, 9 from
SUPERVISOR and 11 from MACHINE, with the reason argument 0 in every case. -/
theorem scall_cause_codes :
    instruction_scall .USER = ⟨0, 8⟩ ∧
    instruction_scall .SUPER = ⟨0, 9⟩ ∧
    instruction_scall .MACHINE = ⟨0, 11⟩ ∧
    ∀ m, (instruction_scall m).reason = 0 := by
  refine ⟨rfl, rfl, rfl, fun m => ?_⟩
  cases m <;> rfl

/-! ## C7: mret privilege gating -/

/-- C7: mret executed in USER or SUPERVISOR mode raises the
illegal-instruction trap with the state returned untouched: pc, mode and
the mstatus mie bit all keep their prior values. -/
theorem mret_priv_gating (cpu : PrivCPU)
    (h : cpu.mode = PrivModes.USER ∨ cpu.mode = PrivModes.SUPER) :
    instruction_mret cpu = (some PrivTrap.illegalInstruction, cpu) ∧
    (instruction_mret cpu).2.pc = cpu.pc ∧
    (instruction_mret cpu).2.mode = cpu.mode ∧
    (instruction_mret cpu).2.csr.get_mstatus "mie" = cpu.csr.get_mstatus "mie" := by
  have hm : cpu.mode ≠ PrivModes.MACHINE := by
    rcases h with h | h <;> simp [h]
  have h1 : instruction_mret cpu = (some PrivTrap.illegalInstruction, cpu) := by
    simp [instruction_mret, hm]
  exact ⟨h1, by rw [h1], by rw [h1], by rw [h1]⟩

/-- A user-mode CPU over the fresh CSR bank. -/
def cpuU : PrivCPU := ⟨PrivModes.USER, 0x50, csr0, fun _ => 0⟩

/-- Witness for mret_priv_gating at the user-mode CPU cpuU. -/
theorem mret_priv_gating_witness :
    (cpuU.mode = PrivModes.USER ∨ cpuU.mode = PrivModes.SUPER) ∧
    (instruction_mret cpuU = (some PrivTrap.illegalInstruction, cpuU) ∧
     (instruction_mret cpuU).2.pc = cpuU.pc ∧
     (instruction_mret cpuU).2.mode = cpuU.mode ∧
     (instruction_mret cpuU).2.csr.get_mstatus "mie" = cpuU.csr.get_mstatus "mie") :=
  ⟨Or.inl rfl, mret_priv_gating cpuU (Or.inl rfl)⟩

/-! ## C6: csrrw never reaches its read-old-value-into-rd behavior -/

/-- A machine-mode CPU holding 99 in CSR 5 and 42 in register t0. -/
def cpuW : PrivCPU :=
  ⟨PrivModes.MACHINE, 0,
   { regs := fun a => if a = 5 then 99 else 0, listeners := fun _ => 0 },
   fun r => if r = "t0" then 42 else 0⟩

/-- C6 (code bug): evaluating csrrw at rd = rs = t0 (not the zero
register), CSR index 5, on a CPU holding 99 in CSR 5 and 42 in t0: the
subscript `self.cpu.csr[ind]` raises TypeError — the CSR class defines no
__getitem__ — so execution crashes before rd or the CSR is written; t0
keeps 42 and CSR 5 keeps 99, instead of the claimed read-old-value-into-rd
followed by the CSR overwrite. -/
theorem csrrw_typeerror_code_bug :
    instruction_csrrw cpuW "t0" "t0" 5
      = (some (CsrrwError.typeError "CSR object is not subscriptable"), cpuW) ∧
    (instruction_csrrw cpuW "t0" "t0" 5).2.regs "t0" = 42 ∧
    (instruction_csrrw cpuW "t0" "t0" 5).2.csr.regs 5 = 99 ∧
    (instruction_csrrw cpuW "t0" "t0" 5).1.isSome = true :=
  ⟨rfl, rfl, rfl, rfl⟩

/-! ## C8: conditional branches -/

/-- Modelled from the spec: parse_rs_rs_imm (in the RV32I base class, not
under src) interprets a 32-bit register value as two's-complement when
signed, else as the raw unsigned value. -/
def toSigned32 (v : Nat) : Int := if v < 2 ^ 31 then (v : Int) else (v : Int) - 2 ^ 32

/-- Modelled from the spec: parse_rs_rs_imm fetches the two register
operands named by the instruction (signed or unsigned view) and the
immediate branch target. -/
def parse_rs_rs_imm (regs : String → Nat) (a1 a2 : String) (imm : Int) (signed : Bool) :
    Int × Int × Int :=
  ((if signed then toSigned32 (regs a1) else (regs a1 : Int)),
   (if signed then toSigned32 (regs a2) else (regs a2 : Int)), imm)

/-- PrivRV32I.instruction_beq: on equality, `self.pc += dst - 4`. -/
def instruction_beq (regs : String → Nat) (a1 a2 : String) (imm pc : Int) : Int :=
  let p := parse_rs_rs_imm regs a1 a2 imm true
  if p.1 = p.2.1 then pc + (p.2.2 - 4) else pc

/-- PrivRV32I.instruction_bne. -/
def instruction_bne (regs : String → Nat) (a1 a2 : String) (imm pc : Int) : Int :=
  let p := parse_rs_rs_imm regs a1 a2 imm true
  if p.1 ≠ p.2.1 then pc + (p.2.2 - 4) else pc

/-- PrivRV32I.instruction_blt: the taken path is `self.pc += dst`, without
the -4 adjustment that every other branch applies. -/
def instruction_blt (regs : String → Nat) (a1 a2 : String) (imm pc : Int) : Int :=
  let p := parse_rs_rs_imm regs a1 a2 imm true
  if p.1 < p.2.1 then pc + p.2.2 else pc

/-- PrivRV32I.instruction_bge. -/
def instruction_bge (regs : String → Nat) (a1 a2 : String) (imm pc : Int) : Int :=
  let p := parse_rs_rs_imm regs a1 a2 imm true
  if p.1 ≥ p.2.1 then pc + (p.2.2 - 4) else pc

/-- PrivRV32I.instruction_bltu: parsed with signed=False. -/
def instruction_bltu (regs : String → Nat) (a1 a2 : String) (imm pc : Int) : Int :=
  let p := parse_rs_rs_imm regs a1 a2 imm false
  if p.1 < p.2.1 then pc + (p.2.2 - 4) else pc

/-- PrivRV32I.instruction_bgeu: parsed with signed=False. -/
def instruction_bgeu (regs : String → Nat) (a1 a2 : String) (imm pc : Int) : Int :=
  let p := parse_rs_rs_imm regs a1 a2 imm false
  if p.1 ≥ p.2.1 then pc + (p.2.2 - 4) else pc

theorem instruction_beq_eq (regs : String → Nat) (a1 a2 : String) (imm pc : Int) :
    instruction_beq regs a1 a2 imm pc
      = if toSigned32 (regs a1) = toSigned32 (regs a2) then pc + (imm - 4) else pc := rfl

theorem instruction_bne_eq (regs : String → Nat) (a1 a2 : String) (imm pc : Int) :
    instruction_bne regs a1 a2 imm pc
      = if toSigned32 (regs a1) ≠ toSigned32 (regs a2) then pc + (imm - 4) else pc := rfl

theorem instruction_blt_eq (regs : String → Nat) (a1 a2 : String) (imm pc : Int) :
    instruction_blt regs a1 a2 imm pc
      = if toSigned32 (regs a1) < toSigned32 (regs a2) then pc + imm else pc := rfl

theorem instruction_bge_eq (regs : String → Nat) (a1 a2 : String) (imm pc : Int) :
    instruction_bge regs a1 a2 imm pc
      = if toSigned32 (regs a1) ≥ toSigned32 (regs a2) then pc + (imm - 4) else pc := rfl

theorem instruction_bltu_eq (regs : String → Nat) (a1 a2 : String) (imm pc : Int) :
    instruction_bltu regs a1 a2 imm pc
      = if ((regs a1 : Int)) < ((regs a2 : Int)) then pc + (imm - 4) else pc := rfl

theorem instruction_bgeu_eq (regs : String → Nat) (a1 a2 : String) (imm pc : Int) :
    instruction_bgeu regs a1 a2 imm pc
      = if ((regs a1 : Int)) ≥ ((regs a2 : Int)) then pc + (imm - 4) else pc := rfl

/-- C8: beq, bne, bge, bltu, bgeu adjust pc by (immediate - 4) when their
condition holds — bltu/bgeu comparing the raw unsigned register values,
the others the signed (two's-complement) views — while blt's taken path
adds the immediate without the -4 correction; every untaken branch leaves
pc unchanged. -/
theorem branch_semantics (regs : String → Nat) (a1 a2 : String) (imm pc : Int) :
    (toSigned32 (regs a1) = toSigned32 (regs a2) →
      instruction_beq regs a1 a2 imm pc = pc + (imm - 4)) ∧
    (toSigned32 (regs a1) ≠ toSigned32 (regs a2) →
      instruction_beq regs a1 a2 imm pc = pc) ∧
    (toSigned32 (regs a1) ≠ toSigned32 (regs a2) →
      instruction_bne regs a1 a2 imm pc = pc + (imm - 4)) ∧
    (toSigned32 (regs a1) = toSigned32 (regs a2) →
      instruction_bne regs a1 a2 imm pc = pc) ∧
    (toSigned32 (regs a2) ≤ toSigned32 (regs a1) →
      instruction_bge regs a1 a2 imm pc = pc + (imm - 4)) ∧
    (toSigned32 (regs a1) < toSigned32 (regs a2) →
      instruction_bge regs a1 a2 imm pc = pc) ∧
    (regs a1 < regs a2 → instruction_bltu regs a1 a2 imm pc = pc + (imm - 4)) ∧
    (regs a2 ≤ regs a1 → instruction_bltu regs a1 a2 imm pc = pc) ∧
    (regs a2 ≤ regs a1 → instruction_bgeu regs a1 a2 imm pc = pc + (imm - 4)) ∧
    (regs a1 < regs a2 → instruction_bgeu regs a1 a2 imm pc = pc) ∧
    (toSigned32 (regs a1) < toSigned32 (regs a2) →
      instruction_blt regs a1 a2 imm pc = pc + imm) ∧
    (toSigned32 (regs a2) ≤ toSigned32 (regs a1) →
      instruction_blt regs a1 a2 imm pc = pc) := by
  refine ⟨fun h => ?_, fun h => ?_, fun h => ?_, fun h => ?_, fun h => ?_, fun h => ?_,
    fun h => ?_, fun h => ?_, fun h => ?_, fun h => ?_, fun h => ?_, fun h => ?_⟩
  · rw [instruction_beq_eq, if_pos h]
  · rw [instruction_beq_eq, if_neg h]
  · rw [instruction_bne_eq, if_pos h]
  · rw [instruction_bne_eq, if_neg (by simpa using h)]
  · rw [instruction_bge_eq, if_pos (by exact h)]
  · rw [instruction_bge_eq, if_neg (by exact not_le.mpr h)]
  · rw [instruction_bltu_eq, if_pos (by exact_mod_cast h)]
  · rw [instruction_bltu_eq, if_neg (by exact not_lt.mpr (by exact_mod_cast h))]
  · rw [instruction_bgeu_eq, if_pos (by exact_mod_cast h)]
  · rw [instruction_bgeu_eq, if_neg (by exact not_le.mpr (by exact_mod_cast h))]
  · rw [instruction_blt_eq, if_pos h]
  · rw [instruction_blt_eq, if_neg (not_lt.mpr h)]

/-- A register file with a0 holding the 32-bit pattern of -1 and a1
holding 5: signed a0 < a1, unsigned a0 > a1. -/
def regsW : String → Nat :=
  fun r => if r = "a0" then 2 ^ 32 - 1 else if r = "a1" then 5 else 0

/-- Witness for branch_semantics: with a0 = 0xFFFFFFFF (signed -1) and
a1 = 5, blt is taken without the -4 adjustment, bltu is untaken, bgeu and
bne are taken with the -4 adjustment, beq and bge are untaken. -/
theorem branch_semantics_witness :
    instruction_blt regsW "a0" "a1" 8 100 = 100 + 8 ∧
    instruction_bltu regsW "a0" "a1" 8 100 = 100 ∧
    instruction_bgeu regsW "a0" "a1" 8 100 = 100 + (8 - 4) ∧
    instruction_beq regsW "a0" "a1" 8 100 = 100 ∧
    instruction_bne regsW "a0" "a1" 8 100 = 100 + (8 - 4) ∧
    instruction_bge regsW "a0" "a1" 8 100 = 100 := by
  have h := branch_semantics regsW "a0" "a1" 8 100
  exact ⟨h.2.2.2.2.2.2.2.2.2.2.1 (by decide),
    h.2.2.2.2.2.2.2.1 (by decide),
    h.2.2.2.2.2.2.2.2.1 (by decide),
    h.2.1 (by decide),
    h.2.2.1 (by decide),
    h.2.2.2.2.2.1 (by decide)⟩

/-! ## C1: the load algorithm (LoadedExecutable.__init__) -/

/-- Modelled from the spec: the alignment constant is a fixed configuration
value (word alignment); align_addr lives in the helpers module, which is
not under src. -/
def alignment : Nat := 4

/-- Modelled from the spec: align_addr rounds an address up to the next
multiple of the alignment constant. -/
def align_addr (addr : Nat) : Nat := ((addr + alignment - 1) / alignment) * alignment

/-- Rounding up never moves an address down. -/
theorem align_addr_ge (a : Nat) : a ≤ align_addr a := by
  unfold align_addr alignment
  have h1 := Nat.div_add_mod (a + 3) 4
  have h2 : (a + 3) % 4 < 4 := Nat.mod_lt _ (by norm_num)
  omega

/-- Executable from Executable.py: the unloaded image.  The sections dict
iterates in insertion order and its keys are the (unique) section names, so
it is modelled as the ordered list of sections; symbols map a name to
(section_name, offset). -/
structure Executable where
  run_ptr : String × Nat
  sections : List MemorySection
  symbols : List (String × String × Nat)
  stack_pref : Option Nat
  name : String
deriving DecidableEq, Repr

/-- LoadedExecutable from Executable.py (the fields set by __init__). -/
structure LoadedExecutable where
  name : String
  base_addr : Nat
  sections : List LoadedMemorySection
  sections_by_name : List (String × LoadedMemorySection)
  symbols : List (String × Nat)
  run_ptr : Nat
  stack_heap : Nat × Nat
  size : Nat
deriving DecidableEq, Repr

/-- The per-section loop of LoadedExecutable.__init__: place each section
at the cursor, then advance the cursor to `align_addr(size + curr)`.
Returns the loaded sections together with the final cursor; None models an
IndexError escaping from continuous_content. -/
def loadSectionsAux (owner : String) : Nat → List MemorySection → Option (List LoadedMemorySection × Nat)
  | curr, [] => some ([], curr)
  | curr, sec :: rest =>
    match sec.continuous_content with
    | none => none
    | some (cont, _) =>
      match loadSectionsAux owner (align_addr (sec.size + curr)) rest with
      | none => none
      | some (lss, fin) =>
        some (⟨sec.name, curr, sec.size, cont, sec.flags, owner⟩ :: lss, fin)

/-- The symbol loop of LoadedExecutable.__init__: each (name, (sec, off))
resolves to `sections_by_name[sec].base + off`; ASSERT_IN fails (None) when
the section is unknown. -/
def resolveSymbols (secs : List (String × LoadedMemorySection)) :
    List (String × String × Nat) → Option (List (String × Nat))
  | [] => some []
  | (n, sec_name, off) :: rest =>
    match secs.lookup sec_name with
    | none => none
    | some sec =>
      match resolveSymbols secs rest with
      | none => none
      | some out => some ((n, sec.base + off) :: out)

/-- LoadedExecutable.__init__ from Executable.py: place the stack section
(when stack_pref is set) at base_addr with stack_heap = (base, base+K),
then walk the image's sections with the cursor starting at base_addr —
note: not at the end of the stack — resolve symbols and the run pointer
through sections_by_name (which never contains the stack), and record
size = final cursor - base_addr. -/
def LoadedExecutable.load (exe : Executable) (base_addr : Nat) : Option LoadedExecutable :=
  let stackSecs : List LoadedMemorySection :=
    match exe.stack_pref with
    | some k => [⟨"stack", base_addr, k, List.replicate k 0, ⟨false, false⟩, exe.name⟩]
    | none => []
  let stack_heap : Nat × Nat :=
    match exe.stack_pref with
    | some k => (base_addr, base_addr + k)
    | none => (0, 0)
  match loadSectionsAux exe.name base_addr exe.sections with
  | none => none
  | some (lss, fin) =>
    let sections_by_name := lss.map (fun s => (s.name, s))
    match resolveSymbols sections_by_name exe.symbols with
    | none => none
    | some syms =>
      match sections_by_name.lookup exe.run_ptr.1 with
      | none => none
      | some rsec =>
        some ⟨exe.name, base_addr, stackSecs ++ lss, sections_by_name, syms,
          rsec.base + exe.run_ptr.2, stack_heap, fin - base_addr⟩

/-- The layout relation realized by the section loop: each loaded section
sits at the cursor, which then advances to the alignment-rounded end of
that section. -/
def wellPlaced : Nat → List MemorySection → List LoadedMemorySection → Prop
  | _, [], [] => True
  | curr, sec :: rest, ls :: lrest =>
    ls.name = sec.name ∧ ls.base = curr ∧ ls.size = sec.size ∧ ls.flags = sec.flags ∧
    wellPlaced (align_addr (sec.size + curr)) rest lrest
  | _, _, _ => False

/-- Two loaded sections occupy disjoint address ranges. -/
def disjointSec (a b : LoadedMemorySection) : Prop :=
  a.base + a.size ≤ b.base ∨ b.base + b.size ≤ a.base

/-- The final cursor after laying out the given sections from base. -/
def cursorAfter (base : Nat) (secs : List MemorySection) : Nat :=
  secs.foldl (fun c s => align_addr (s.size + c)) base

/-- Every section laid out from cursor `curr` sits at or above `curr`. -/
theorem wellPlaced_base_le :
    ∀ (secs : List MemorySection) (curr : Nat) (lss : List LoadedMemorySection),
    wellPlaced curr secs lss → ∀ ls ∈ lss, curr ≤ ls.base := by
  intro secs
  induction secs with
  | nil =>
    intro curr lss h ls hls
    cases lss with
    | nil => cases hls
    | cons a b => exact h.elim
  | cons sec rest ih =>
    intro curr lss h ls hls
    cases lss with
    | nil => exact h.elim
    | cons l0 lrest =>
      obtain ⟨_, hb, _, _, hrest⟩ := h
      rcases List.mem_cons.mp hls with rfl | hmem
      · omega
      · have h1 := ih (align_addr (sec.size + curr)) lrest hrest ls hmem
        have h2 := align_addr_ge (sec.size + curr)
        omega

/-- Sections laid out by the cursor walk are pairwise disjoint. -/
theorem wellPlaced_pairwise :
    ∀ (secs : List MemorySection) (curr : Nat) (lss : List LoadedMemorySection),
    wellPlaced curr secs lss → lss.Pairwise disjointSec := by
  intro secs
  induction secs with
  | nil =>
    intro curr lss h
    cases lss with
    | nil => exact List.Pairwise.nil
    | cons a b => exact h.elim
  | cons sec rest ih =>
    intro curr lss h
    cases lss with
    | nil => exact h.elim
    | cons l0 lrest =>
      obtain ⟨_, hb, hs, _, hrest⟩ := h
      refine List.Pairwise.cons (fun b hbmem => ?_) (ih _ lrest hrest)
      have h1 := wellPlaced_base_le rest (align_addr (sec.size + curr)) lrest hrest b hbmem
      have h2 := align_addr_ge (sec.size + curr)
      left
      omega

/-- The section loop realizes wellPlaced and ends at the cursor value. -/
theorem loadSectionsAux_spec (owner : String) :
    ∀ (secs : List MemorySection) (curr : Nat) (lss : List LoadedMemorySection) (fin : Nat),
    loadSectionsAux owner curr secs = some (lss, fin) →
    wellPlaced curr secs lss ∧ fin = cursorAfter curr secs ∧ lss.length = secs.length := by
  intro secs
  induction secs with
  | nil =>
    intro curr lss fin h
    simp only [loadSectionsAux, Option.some.injEq, Prod.mk.injEq] at h
    obtain ⟨rfl, rfl⟩ := h
    exact ⟨trivial, rfl, rfl⟩
  | cons sec rest ih =>
    intro curr lss fin h
    simp only [loadSectionsAux] at h
    cases hcc : sec.continuous_content with
    | none => rw [hcc] at h; cases h
    | some pr =>
      obtain ⟨cont, s2⟩ := pr
      rw [hcc] at h
      cases hrec : loadSectionsAux owner (align_addr (sec.size + curr)) rest with
      | none => rw [hrec] at h; cases h
      | some pr2 =>
        obtain ⟨lss2, fin2⟩ := pr2
        rw [hrec] at h
        simp only [Option.some.injEq, Prod.mk.injEq] at h
        obtain ⟨rfl, rfl⟩ := h
        obtain ⟨hwp, hfin, hlen⟩ := ih (align_addr (sec.size + curr)) lss2 fin2 hrec
        refine ⟨⟨rfl, rfl, rfl, rfl, hwp⟩, ?_, by simp [hlen]⟩
        simpa [cursorAfter] using hfin

/-- C1 (amended): loading places the stack section (when stack_pref = K is
set) at [base, base+K) with stack_heap = (base, base+K), and stack_heap =
(0,0) with no stack section when unset; the ordinary sections are walked
with the address cursor starting at base itself — not after the stack — so
S1 sits at base and each subsequent section at the alignment-rounded end of
its predecessor; consequently the ordinary sections are pairwise
non-overlapping, but when K > 0 and the first ordinary section is nonempty
the stack overlaps it; the Loaded Executable's size is the final cursor
minus base. -/
theorem load_layout (exe : Executable) (base : Nat) (le : LoadedExecutable)
    (h : LoadedExecutable.load exe base = some le) :
    le.name = exe.name ∧
    le.base_addr = base ∧
    le.size = cursorAfter base exe.sections - base ∧
    (exe.stack_pref = none →
      le.stack_heap = (0, 0) ∧
      le.sections.length = exe.sections.length ∧
      wellPlaced base exe.sections le.sections ∧
      List.Pairwise disjointSec le.sections) ∧
    (∀ k, exe.stack_pref = some k →
      le.stack_heap = (base, base + k) ∧
      le.sections.head?
        = some ⟨"stack", base, k, List.replicate k 0, ⟨false, false⟩, exe.name⟩ ∧
      le.sections.length = exe.sections.length + 1 ∧
      wellPlaced base exe.sections le.sections.tail ∧
      List.Pairwise disjointSec le.sections.tail ∧
      (∀ s0 rest2, 0 < k → le.sections.tail = s0 :: rest2 → 0 < s0.size →
        ¬ disjointSec ⟨"stack", base, k, List.replicate k 0, ⟨false, false⟩, exe.name⟩ s0)) := by
  simp only [LoadedExecutable.load] at h
  cases hload : loadSectionsAux exe.name base exe.sections with
  | none => exact Option.noConfusion (by simpa only [hload] using h)
  | some pr =>
    obtain ⟨lss, fin⟩ := pr
    simp only [hload] at h
    cases hsym : resolveSymbols (lss.map fun s => (s.name, s)) exe.symbols with
    | none => exact Option.noConfusion (by simpa only [hsym] using h)
    | some syms =>
      simp only [hsym] at h
      cases hrun : (lss.map fun s => (s.name, s)).lookup exe.run_ptr.1 with
      | none => exact Option.noConfusion (by simpa only [hrun] using h)
      | some rsec =>
        simp only [hrun, Option.some.injEq] at h
        obtain ⟨hwp, hfin, hlen⟩ := loadSectionsAux_spec exe.name exe.sections base lss fin hload
        subst h
        refine ⟨rfl, rfl, by simpa using congrArg (fun x => x - base) hfin,
          fun hsp => ?_, fun k hsp => ?_⟩
        · simp only [hsp]
          refine ⟨trivial, by simpa using hlen, by simpa using hwp, ?_⟩
          simpa using wellPlaced_pairwise exe.sections base lss hwp
        · simp only [hsp]
          refine ⟨trivial, by simp, by simpa using hlen, by simpa using hwp, ?_, ?_⟩
          · simpa using wellPlaced_pairwise exe.sections base lss hwp
          · intro s0 rest2 hk htail hs0 hd
            have htail2 : lss = s0 :: rest2 := by simpa using htail
            rcases hE : exe.sections with _ | ⟨sec, rest⟩
            · rw [hE, htail2] at hwp
              exact hwp.elim
            · rw [hE, htail2] at hwp
              obtain ⟨_, hb, _, _, _⟩ := hwp
              rcases hd with hd | hd <;> simp only [] at hd <;> omega

/-- An image with a 4-byte stack preference and one 4-byte text section. -/
def exe0 : Executable :=
  ⟨("text", 0), [⟨"text", ⟨true, true⟩, 4, [[1, 2, 3, 4]]⟩], [], some 4, "ex"⟩

/-- The Loaded Executable that loading exe0 at base 0 produces. -/
def le0 : LoadedExecutable :=
  ⟨"ex", 0,
   [⟨"stack", 0, 4, [0, 0, 0, 0], ⟨false, false⟩, "ex"⟩,
    ⟨"text", 0, 4, [1, 2, 3, 4], ⟨true, true⟩, "ex"⟩],
   [("text", ⟨"text", 0, 4, [1, 2, 3, 4], ⟨true, true⟩, "ex"⟩)],
   [], 0, (0, 4), 4⟩

/-- C1 counterexample: loading exe0 (stack K = 4, one 4-byte section) at
base 0 places both the stack section and the text section at [0, 4) — the
cursor restarts at base after the stack — so two loaded sections overlap,
refuting the claim's non-overlap conjunct. -/
theorem load_overlap_counterexample :
    LoadedExecutable.load exe0 0 = some le0 ∧
    le0.sections
      = [⟨"stack", 0, 4, [0, 0, 0, 0], ⟨false, false⟩, "ex"⟩,
         ⟨"text", 0, 4, [1, 2, 3, 4], ⟨true, true⟩, "ex"⟩] ∧
    ¬ disjointSec ⟨"stack", 0, 4, [0, 0, 0, 0], ⟨false, false⟩, "ex"⟩
        ⟨"text", 0, 4, [1, 2, 3, 4], ⟨true, true⟩, "ex"⟩ := by
  refine ⟨by decide, rfl, fun hd => ?_⟩
  rcases hd with hd | hd <;> simp only [disjointSec] at hd <;> omega

/-- Witness for load_layout at exe0 loaded at base 0: the stack facts, the
layout of the ordinary sections, their pairwise disjointness and the size
equation, all instantiated concretely. -/
theorem load_layout_witness :
    LoadedExecutable.load exe0 0 = some le0 ∧
    le0.stack_heap = (0, 0 + 4) ∧
    le0.sections.head?
      = some ⟨"stack", 0, 4, List.replicate 4 0, ⟨false, false⟩, exe0.name⟩ ∧
    le0.sections.length = exe0.sections.length + 1 ∧
    wellPlaced 0 exe0.sections le0.sections.tail ∧
    List.Pairwise disjointSec le0.sections.tail ∧
    le0.size = cursorAfter 0 exe0.sections - 0 := by
  have h := load_layout exe0 0 le0 (by decide)
  have h2 := h.2.2.2.2 4 rfl
  exact ⟨by decide, h2.1, h2.2.1, h2.2.2.1, h2.2.2.2.1, h2.2.2.2.2.1, h.2.2.1⟩
